import Mathlib

/-!
Verification development for the vwf2tikz core (parser.py, render.py).

The Python source is shallowly embedded: Python floats become exact
rationals, Python dicts become insertion-ordered association lists,
raised exceptions become the error side of an Except monad, and every
statement-level mutation is turned into explicit state passing (a
function that mutates an argument additionally returns the final state
of that argument).
-/

/-- Errors raised by the Python code.  ParseError is the user-facing
malformed-input error class defined in parser.py; the remaining
constructors stand for the builtin exceptions the code can raise
(AssertionError from assert statements, KeyError from dictionary
lookups, NameError from unbound identifiers, TypeError from invalid
operations such as calling None). -/
inductive PErr where
  | parseError (msg : String)
  | assertionError
  | keyError
  | nameError (missing : String)
  | typeError
deriving DecidableEq, Repr

/-- Values of the generic configuration language: a quoted string, an
integer, a decimal (Python float, embedded as an exact rational), a
bare identifier (the Identifier wrapper class of parser.py), or an
ordered tuple produced by the array production. -/
inductive Value where
  | str (s : String)
  | int (n : ℤ)
  | dec (q : ℚ)
  | ident (s : String)
  | arr (vs : List Value)

/-- Scalar levels of a level statement: an integer (the grammar admits
any integer; the flattener later restricts to 0 and 1) or the literal
X. -/
inductive SLevel where
  | i (n : ℤ)
  | X
deriving DecidableEq, Repr

/-- Stanzas of the generic configuration language, mirroring the Block,
Assignment and LevelStatement classes of parser.py.  A block has a
name, an optional parenthesized index and an ordered children list. -/
inductive Stanza where
  | block (field : String) (index : Option Value) (contents : List Stanza)
  | assignment (field : String) (value : Value)
  | levelStatement (level : SLevel) (time : ℚ)

/-- The Python classes an attribute value is checked against with
isinstance in validate_dictionary: int, float, str, the Identifier
wrapper, and tuple. -/
inductive PyType where
  | int
  | float
  | str
  | ident
  | tuple
deriving DecidableEq

/-- isinstance(value, expected) for the embedded value representation. -/
def value_isinstance : Value → PyType → Bool
  | .int _, .int => true
  | .dec _, .float => true
  | .str _, .str => true
  | .ident _, .ident => true
  | .arr _, .tuple => true
  | _, _ => false

/-- Attribute dictionaries, in insertion order. -/
abbrev Attrs := List (String × Value)

/-- The filter body of consume_attributes: an Assignment stanza moves
into the dictionary (a duplicate key raises; the message formatting of
that raise references the name block, which is unbound at that point,
so the duplicate-key path actually raises NameError); every other
stanza stays in the residual list. -/
def consume_attributes_step (acc : List Stanza × Attrs) (s : Stanza) :
    Except PErr (List Stanza × Attrs) :=
  match s with
  | .assignment k v =>
      if (acc.2.lookup k).isSome then throw (.nameError "block")
      else pure (acc.1, acc.2 ++ [(k, v)])
  | _ => pure (acc.1 ++ [s], acc.2)

/-- consume_attributes of parser.py: walks the direct children of a
block, removes Assignment stanzas into a dictionary and keeps every
other stanza, in order. -/
def consume_attributes (contents : List Stanza) : Except PErr (List Stanza × Attrs) :=
  contents.foldlM consume_attributes_step ([], [])

/-- validate_dictionary of parser.py: checks that every present key is
known (when strict), that known keys have the expected value type, and
that every mandatory key is present.  Error messages formed from the
offending values are abbreviated to their fixed text. -/
def validate_dictionary (attributes : Attrs) (mandatory : List (String × PyType))
    (optional_keys : List (String × PyType)) (strict : Bool) : Except PErr Attrs := do
  let _ ← attributes.foldlM (fun _ kv => do
      let expected : Option PyType :=
        match mandatory.lookup kv.1 with
        | some t => some t
        | none => optional_keys.lookup kv.1
      if strict && expected.isNone then
        throw (.parseError ("Unknown field " ++ kv.1))
      else
        match expected with
        | some t =>
            if value_isinstance kv.2 t then pure ()
            else throw (.parseError ("Field " ++ kv.1 ++ " has a value of unexpected type"))
        | none => pure ()) ()
  let missing := mandatory.filter (fun m => (attributes.lookup m.1).isNone)
  if missing.length ≠ 0 then throw (.parseError "Missing mandatory keys")
  pure attributes

/-- validate_attributes of parser.py: consumes the attributes of a
block and validates them.  The Python function reassigns
block.contents to the residual children; that mutation is embedded by
returning the updated block alongside the attributes. -/
def validate_attributes (block : Stanza) (mandatory : List (String × PyType))
    (optional_keys : List (String × PyType)) (strict : Bool) :
    Except PErr (Stanza × Attrs) :=
  match block with
  | .block f idx contents => do
      let (residual, attributes) ← consume_attributes contents
      let attributes ← validate_dictionary attributes mandatory optional_keys strict
      pure (.block f idx residual, attributes)
  | _ => throw .typeError

/-- consume_indexed_blocks of parser.py: removes blocks with the given
name from the stanza list, collecting an index-to-contents dictionary;
the index must be a string and must be fresh. -/
def consume_indexed_blocks (contents : List Stanza) (name : String) :
    Except PErr (List Stanza × List (String × List Stanza)) :=
  contents.foldlM (fun acc s =>
    match s with
    | .block bname index bcontents =>
        if bname ≠ name then pure (acc.1 ++ [s], acc.2)
        else
          match index with
          | some (.str idx) =>
              if (acc.2.lookup idx).isSome then
                throw (.parseError ("Duplicate index: " ++ idx))
              else pure (acc.1, acc.2 ++ [(idx, bcontents)])
          | _ => throw (.parseError "Expected string index")
    | _ => pure (acc.1 ++ [s], acc.2)) ([], [])

/-- consume_blocks of parser.py: removes blocks with the given name,
which must have no index, collecting their contents lists in order. -/
def consume_blocks (contents : List Stanza) (name : String) :
    Except PErr (List Stanza × List (List Stanza)) :=
  contents.foldlM (fun acc s =>
    match s with
    | .block bname index bcontents =>
        if bname ≠ name then pure (acc.1 ++ [s], acc.2)
        else
          match index with
          | none => pure (acc.1, acc.2 ++ [bcontents])
          | some _ => throw (.parseError ("Unexpected index on " ++ name ++ " block"))
    | _ => pure (acc.1 ++ [s], acc.2)) ([], [])

/-- The result of validate_header in parser.py.  Two of its failure
paths use a return statement on a freshly constructed ParseError
instead of raising it, so the caller receives the exception object as
an ordinary value; the errObject constructor records that outcome. -/
inductive HeaderV where
  | attrs (a : Attrs)
  | errObject (msg : String)

/-- The mandatory header keys and their value types. -/
def header_mandatory : List (String × PyType) :=
  [("VERSION", .int), ("TIME_UNIT", .ident), ("DATA_OFFSET", .float),
   ("DATA_DURATION", .float), ("SIMULATION_TIME", .float), ("GRID_PHASE", .float),
   ("GRID_PERIOD", .float), ("GRID_DUTY_CYCLE", .int)]

/-- The fixed-configuration test of validate_header: version 1, time
unit ns, zero data offset, data duration equal to simulation time, and
a 50 percent grid duty cycle. -/
def header_accepted (h : Attrs) : Bool :=
  (match h.lookup "VERSION" with | some (.int n) => decide (n = 1) | _ => false) &&
  (match h.lookup "TIME_UNIT" with | some (.ident s) => decide (s = "ns") | _ => false) &&
  (match h.lookup "DATA_OFFSET" with | some (.dec q) => decide (q = 0) | _ => false) &&
  (match h.lookup "DATA_DURATION", h.lookup "SIMULATION_TIME" with
   | some (.dec a), some (.dec b) => decide (a = b)
   | _, _ => false) &&
  (match h.lookup "GRID_DUTY_CYCLE" with | some (.int n) => decide (n = 50) | _ => false)

/-- validate_header of parser.py.  The pop of the first stanza mutates
the document list in Python; here the residual document is returned.
The unparsed-contents and unaccepted-header paths return (rather than
raise) a ParseError, embedded as the errObject value. -/
def validate_header (document : List Stanza) : Except PErr (List Stanza × HeaderV) :=
  match document with
  | [] => throw (.parseError "Document has no stanzas")
  | blk :: rest =>
    match blk with
    | .block "HEADER" none contents => do
        let (residual, a) ← consume_attributes contents
        let a ← validate_dictionary a header_mandatory [("PRINT_OPTIONS", .str)] true
        if residual.length ≠ 0 then pure (rest, .errObject "Unparsed header contents")
        else if header_accepted a then pure (rest, .attrs a)
        else pure (rest, .errObject "Unaccepted header")
    | _ => throw (.parseError "First stanza is not a header block")

/-- One flattened (duration, level) entry. -/
abbrev LevelList := List (ℚ × SLevel)

mutual

/-- convert_level_stanza of parser.py: flattens a LevelStatement into a
single (duration, level) pair, or a NODE repeat block into its
replicated flattened body.  Every assert failure of the Python
function, as well as the IndexError on an empty NODE block, is
collapsed to none.  The REPEAT replication is Python list
multiplication, which yields the empty list for every non-positive
count. -/
def convert_level_stanza : Stanza → Option LevelList
  | .levelStatement l t =>
      if (l = .i 0 ∨ l = .i 1 ∨ l = .X) ∧ 0 < t then some [(t, l)] else none
  | .block f none contents =>
      if f = "NODE" then
        match contents with
        | .assignment rf (.int n) :: rest =>
            if rf = "REPEAT" then
              (convert_level_seq rest).map (fun c => (List.replicate n.toNat c).flatten)
            else none
        | _ => none
      else none
  | _ => none

/-- The reduce in convert_level_stanza that concatenates the flattened
remaining children of a NODE block, failing as soon as one child
fails. -/
def convert_level_seq : List Stanza → Option LevelList
  | [] => some []
  | s :: rest => do
      let a ← convert_level_stanza s
      let b ← convert_level_seq rest
      pure (a ++ b)

end

/-- The Signal record of parser.py. -/
structure Signal where
  direction : String
  value_type : String
  width : ℤ
  parent : Option String
  transition_list : Option Stanza

/-- The mandatory signal keys and their value types. -/
def signal_mandatory : List (String × PyType) :=
  [("VALUE_TYPE", .ident), ("SIGNAL_TYPE", .ident), ("WIDTH", .int),
   ("LSB_INDEX", .int), ("DIRECTION", .ident), ("PARENT", .str)]

/-- parse_signal of parser.py: validates the attribute schema of a
SIGNAL block and the width/parent/lsb-index cross invariants, and
builds the Signal record (transition_list initially unset). -/
def parse_signal (name : String) (contents : List Stanza) : Except PErr Signal := do
  let _ := name
  let (residual, attributes) ← consume_attributes contents
  let attributes ← validate_dictionary attributes signal_mandatory [] true
  if residual.length ≠ 0 then throw .assertionError else do
  let value_type ← match attributes.lookup "VALUE_TYPE" with
    | some (.ident s) => pure s | _ => throw .keyError
  let signal_type ← match attributes.lookup "SIGNAL_TYPE" with
    | some (.ident s) => pure s | _ => throw .keyError
  let width ← match attributes.lookup "WIDTH" with
    | some (.int n) => pure n | _ => throw .keyError
  let lsb_index ← match attributes.lookup "LSB_INDEX" with
    | some (.int n) => pure n | _ => throw .keyError
  let direction ← match attributes.lookup "DIRECTION" with
    | some (.ident s) => pure s | _ => throw .keyError
  let parent ← match attributes.lookup "PARENT" with
    | some (.str s) => pure s | _ => throw .keyError
  if value_type ≠ "NINE_LEVEL_BIT" then throw .assertionError else do
  let is_bus ← if signal_type = "SINGLE_BIT" then pure false
    else if signal_type = "BUS" then pure true
    else throw .keyError
  if is_bus ≠ decide (width ≠ 1) then throw .assertionError else do
  let lsb_expect : ℤ := if signal_type = "SINGLE_BIT" then -1 else 0
  if lsb_index ≠ lsb_expect then throw .assertionError else do
  if width > 1 ∧ parent.length ≠ 0 then throw .assertionError else do
  if ¬ width > 0 then throw .assertionError else do
  let parentOpt := if parent.length = 0 then none else some parent
  let direction ← if direction = "OUTPUT" then pure "output"
    else if direction = "INPUT" then pure "input"
    else if direction = "BIDIR" then pure "bidir"
    else throw .keyError
  pure ⟨direction, value_type, width, parentOpt, none⟩

/-- Installs a transition list on the named signal of an association
list, the embedding of the attribute assignment in map_signals. -/
def set_transition (m : List (String × Signal)) (k : String) (st : Stanza) :
    List (String × Signal) :=
  m.map (fun p => if p.1 = k then (p.1, { p.2 with transition_list := some st }) else p)

/-- One iteration of the transition-list loop of map_signals: the name
must be a declared signal and the entry must hold exactly one stanza,
which becomes the transition list of that signal. -/
def map_signals_step (m : List (String × Signal)) (p : String × List Stanza) :
    Except PErr (List (String × Signal)) :=
  if (m.lookup p.1).isSome then
    match p.2 with
    | [st] => pure (set_transition m p.1 st)
    | _ => throw .assertionError
  else throw .assertionError

/-- map_signals of parser.py: parses every SIGNAL block, then walks the
TRANSITION_LIST dictionary with map_signals_step.  A signal that never
appears in the transition-list dictionary keeps an unset transition
list. -/
def map_signals (signals : List (String × List Stanza))
    (transition_lists : List (String × List Stanza)) :
    Except PErr (List (String × Signal)) := do
  let sigs ← signals.mapM (fun p => (parse_signal p.1 p.2).map (fun s => (p.1, s)))
  transition_lists.foldlM map_signals_step sigs

/-- The DisplayLine record of parser.py: channel name, radix tag,
expansion flag, and either none (leaf) or a children list
(bus-expansion node). -/
inductive DisplayLine where
  | mk (channel : String) (radix : String) (expanded : Bool)
       (children : Option (List DisplayLine))

/-- Channel accessor. -/
def DisplayLine.channel : DisplayLine → String
  | .mk c _ _ _ => c

/-- Radix accessor. -/
def DisplayLine.radix : DisplayLine → String
  | .mk _ r _ _ => r

/-- Expansion-flag accessor. -/
def DisplayLine.expanded : DisplayLine → Bool
  | .mk _ _ e _ => e

/-- Children accessor. -/
def DisplayLine.children : DisplayLine → Option (List DisplayLine)
  | .mk _ _ _ cs => cs

/-- The mandatory and optional DISPLAY_LINE keys. -/
def display_line_mandatory : List (String × PyType) :=
  [("CHANNEL", .str), ("EXPAND_STATUS", .ident), ("RADIX", .ident),
   ("TREE_INDEX", .int), ("TREE_LEVEL", .int)]

/-- The optional DISPLAY_LINE keys. -/
def display_line_optional : List (String × PyType) :=
  [("PARENT", .int), ("CHILDREN", .tuple)]

/-- The indexing loop of map_display_lines: validates one DISPLAY_LINE
block and returns its tree index with its attributes. -/
def parse_display_block (contents : List Stanza) : Except PErr (ℤ × Attrs) := do
  let (residual, attrs) ← consume_attributes contents
  let attrs ← validate_dictionary attrs display_line_mandatory display_line_optional true
  if residual.length ≠ 0 then throw .assertionError else
  match attrs.lookup "TREE_INDEX" with
  | some (.int idx) => pure (idx, attrs)
  | _ => throw .keyError

/-- The recursive convert of map_display_lines.  Python deletes each
visited entry from a shared dictionary; that dictionary is threaded
explicitly.  The recursion is made structural on a depth bound; since
every call removes one entry before recursing, map_display_lines
supplies a bound (entry count plus one) that can never be exhausted,
and the fuel-out branch is an unreachable KeyError. -/
def convert_display (fuel : Nat) (dls : List (ℤ × Attrs)) (idx : ℤ)
    (expected_parent : Option ℤ) (expected_level : ℤ) :
    Except PErr (List (ℤ × Attrs) × DisplayLine) :=
  match fuel with
  | 0 => throw .keyError
  | fuel + 1 => do
    let attrs ← match dls.lookup idx with
      | some a => pure a
      | none => throw .keyError
    let dls := dls.filter (fun p => !(p.1 == idx))
    let _ ← match attrs.lookup "TREE_LEVEL" with
      | some (.int l) => if l = expected_level then pure () else throw .assertionError
      | _ => throw .keyError
    let _ ← match expected_parent with
      | none =>
          if (attrs.lookup "PARENT").isSome then throw .assertionError else pure ()
      | some p =>
          match attrs.lookup "PARENT" with
          | some (.int q) => if q = p then pure () else throw .assertionError
          | some _ => throw .assertionError
          | none => throw .keyError
    let channel ← match attrs.lookup "CHANNEL" with
      | some (.str c) => pure c
      | _ => throw .keyError
    let radix ← match attrs.lookup "RADIX" with
      | some (.ident r) => pure r
      | _ => throw .keyError
    let expanded ← match attrs.lookup "EXPAND_STATUS" with
      | some (.ident "COLLAPSED") => pure false
      | some (.ident "EXPANDED") => pure true
      | some (.ident _) => throw .keyError
      | _ => throw .keyError
    match attrs.lookup "CHILDREN" with
    | none => pure (dls, .mk channel radix expanded none)
    | some (.arr vs) => do
        let (dls, children) ← vs.foldlM (fun acc v => do
            match v with
            | .int ci => do
                let (dls2, c) ← convert_display fuel acc.1 ci (some idx) (expected_level + 1)
                pure (dls2, acc.2 ++ [c])
            | _ => throw .keyError) (dls, ([] : List DisplayLine))
        pure (dls, .mk channel radix expanded (some children))
    | some _ => throw .typeError

/-- map_display_lines of parser.py: indexes every DISPLAY_LINE block by
its unique tree index, identifies roots (entries without a PARENT key),
recursively materializes each root checking level and parent
consistency, and rejects entries never visited as orphans. -/
def map_display_lines (blocks : List (List Stanza)) : Except PErr (List DisplayLine) := do
  let (dls, tops) ← blocks.foldlM
    (fun (acc : List (ℤ × Attrs) × List ℤ) contents => do
      let (idx, attrs) ← parse_display_block contents
      if (acc.1.lookup idx).isSome then throw .assertionError else
      let tops := if (attrs.lookup "PARENT").isNone then acc.2 ++ [idx] else acc.2
      pure (acc.1 ++ [(idx, attrs)], tops)) (([], []) : List (ℤ × Attrs) × List ℤ)
  let fuel := dls.length + 1
  let (dls, result) ← tops.foldlM
    (fun (acc : List (ℤ × Attrs) × List DisplayLine) idx => do
      let (dls2, dl) ← convert_display fuel acc.1 idx none 0
      pure (dls2, acc.2 ++ [dl])) ((dls, []) : List (ℤ × Attrs) × List DisplayLine)
  if dls.length ≠ 0 then throw (.parseError "There are orphan display lines")
  pure result

/-- The Document record of parser.py. -/
structure Document where
  header : HeaderV
  signals : List (String × Signal)
  display_lines : List DisplayLine
  time_bars : List (List Stanza)

/-- The decode step at the top of parse_vwf (parser.py lines 36-40):
the input byte string must decode as ASCII.  The Python handler for a
failed decode is written except DecodeError, but no name DecodeError is
bound anywhere in the program, so a non-ASCII input makes the handler
itself raise NameError instead of the intended
ParseError("Non-ASCII content"). -/
def parse_vwf_decode (input : List Nat) : Except PErr (List Nat) :=
  if input.all (fun b => b < 128) then .ok input
  else .error (.nameError "DecodeError")

/-- parse_vwf of parser.py from the point where the stanza list has
been produced by the grammar: extract and validate the header, the
signals joined with their transition lists, the display-line forest,
the time bars and the groups, and reject leftover stanzas. -/
def parse_vwf_stanzas (parsed : List Stanza) : Except PErr Document := do
  let (parsed, header) ← validate_header parsed
  let (parsed, signalBlocks) ← consume_indexed_blocks parsed "SIGNAL"
  let (parsed, transitionBlocks) ← consume_indexed_blocks parsed "TRANSITION_LIST"
  let signals ← map_signals signalBlocks transitionBlocks
  let (parsed, displayBlocks) ← consume_blocks parsed "DISPLAY_LINE"
  let display_lines ← map_display_lines displayBlocks
  let (parsed, time_bars) ← consume_blocks parsed "TIME_BAR"
  let (parsed, _groups) ← consume_indexed_blocks parsed "GROUP"
  if parsed.length ≠ 0 then throw (.parseError "Unexpected unparsed blocks in VWF")
  pure ⟨header, signals, display_lines, time_bars⟩

/-- Head duration of a level list (only read when the list is
nonempty). -/
def head_dur (l : LevelList) : ℚ := (l.headD (0, .X)).1

/-- Head level of a level list (only read when the list is
nonempty). -/
def head_level (l : LevelList) : SLevel := (l.headD (0, .X)).2

/-- The min over the head durations of all lists, as computed by the
builtin min in zip_level_lists (only read when every list is
nonempty). -/
def min_head (lists : List LevelList) : ℚ :=
  match lists with
  | [] => 0
  | l :: rest => rest.foldl (fun m l2 => min m (head_dur l2)) (head_dur l)

/-- One per-list update of the zip loop: subtract the common step from
the head duration and drop the head if it reaches exactly zero. -/
def zip_update (time : ℚ) (l : LevelList) : LevelList :=
  match l with
  | [] => []
  | (d, v) :: rest => if d - time = 0 then rest else (d - time, v) :: rest

/-- Total number of entries across all lists; the loop variant of
zip_level_lists. -/
def total_len (lists : List LevelList) : Nat := (lists.map List.length).sum

/-- The while loop of zip_level_lists, made structural on a bound on
its iteration count: every iteration pops at least one entry (the head
that attains the min), so total_len is a strict variant and
zip_level_lists supplies it as an always-sufficient bound (proved in
zip_go_fuel_stable).  The loop returns both the composite result and
the final state of the argument lists, which the Python loop mutates
in place. -/
def zip_go : Nat → List LevelList → List (ℚ × List SLevel) × List LevelList
  | 0, lists => ([], lists)
  | fuel + 1, lists =>
    if lists.all (fun l => !l.isEmpty) then
      let time := min_head lists
      let levels := lists.map head_level
      let step := zip_go fuel (lists.map (zip_update time))
      ((time, levels) :: step.1, step.2)
    else ([], lists)

/-- zip_level_lists of render.py: asserts the collection is nonempty,
then synchronizes the lists as above.  The first component of the
result is the composite list the Python function returns; the second
component is the final (mutated) state of the argument lists. -/
def zip_level_lists (lists : List LevelList) :
    Except PErr (List (ℚ × List SLevel) × List LevelList) :=
  if lists.length = 0 then .error .assertionError
  else .ok (zip_go (total_len lists) lists)

/-- The loop of crop_level_list in render.py, threading the mutable
start and duration variables.  The assert on a negative entry duration
is the none result. -/
def crop_go {α : Type} (start duration : ℚ) : List (ℚ × α) → Option (List (ℚ × α))
  | [] => some []
  | (time, level) :: rest =>
      if time < 0 then none
      else if 0 < start ∧ 0 ≤ start - time then
        crop_go (start - time) duration rest
      else
        let start2 := if 0 < start then start - time else start
        let t1 := if 0 < start then -(start - time) else time
        let t2 := if duration < t1 then duration else t1
        if duration = 0 then some []
        else (crop_go start2 (duration - t2) rest).map (fun r => (t2, level) :: r)

/-- crop_level_list of render.py: crops a level list to a (start, end)
viewport window. -/
def crop_level_list {α : Type} (levels : List (ℚ × α)) (viewport : ℚ × ℚ) :
    Option (List (ℚ × α)) :=
  crop_go viewport.1 (viewport.2 - viewport.1) levels

/-- Whether a scalar level is truthy in Python: a nonzero integer, or
the nonempty string X. -/
def slevel_truthy : SLevel → Bool
  | .i n => !(n == 0)
  | .X => true

/-- The str() rendering of a scalar level: the decimal text of an
integer, or the character X. -/
def slevel_str : SLevel → String
  | .i n => toString n
  | .X => "X"

/-- bits_to_int of render.py.  The Python reduce has no initial value:
an empty tuple raises TypeError, and the first element is used as the
accumulator without any assert, so only the later elements are checked
to be 0 or 1.  A first element that is the string X would make the
arithmetic raise TypeError. -/
def bits_to_int (x : List SLevel) : Except PErr ℤ :=
  match x with
  | [] => .error .typeError
  | first :: rest =>
      match first with
      | .X => .error .typeError
      | .i a =>
          rest.foldlM (fun accum bit =>
            match bit with
            | .i b => if b = 0 ∨ b = 1 then pure (accum * 2 + b) else throw .assertionError
            | .X => throw .assertionError) a

/-- A node-matching pattern of the configuration: an exact name, a
collection of names (Python tuple or list), a predicate, or any other
value, which never matches. -/
inductive NodePattern where
  | str (s : String)
  | names (ss : List String)
  | func (f : String → Bool)
  | other

/-- match_node of render.py. -/
def match_node : NodePattern → String → Bool
  | .str p, node => p == node
  | .names ps, node => ps.contains node
  | .func f, node => f node
  | .other, _ => false

/-- The configuration dictionary of render.py, restricted to the keys
the rendering engine reads.  clock_lines is False or an edge name;
every Python falsy value of that option is embedded as none.  The
custom renderer constructors of the source also receive the full
configuration; that argument is dropped here so the configuration type
stays first order.  Fields whose Python names end in reserved words
carry a _flag suffix. -/
structure Config where
  scale : ℚ
  viewport : Option (ℚ × ℚ)
  clock_node : NodePattern
  clock_no_slope : Bool
  clock_lines : Option String
  render_bit_as_bus : NodePattern
  render_hex_prefix_flag : Bool
  render_hex_uppercase : Bool
  render_hex_zero_padding : Bool
  render_hide_char_scale : ℚ
  render_hide_char_limit : ℚ
  render_hide_margin : ℚ
  custom_renderers : List (NodePattern × (DisplayLine → List SLevel → Except PErr String))

/-- Left-pads a digit string with zeros to six characters, for the
fractional part of percent-f formatting. -/
def pad_to_six (s : String) : String :=
  if s.length < 6 then String.mk (List.replicate (6 - s.length) (Char.ofNat 48)) ++ s else s

/-- Percent-f formatting of a number with the default six fractional
digits.  The binary floating point of the source is idealized as exact
rationals, rounded to six decimals. -/
def format_fixed6 (q : ℚ) : String :=
  let neg := q < 0
  let n : ℤ := ⌊|q| * 1000000 + 1 / 2⌋
  let ip := n / 1000000
  let fp := n % 1000000
  (if neg then "-" else "") ++ toString ip ++ "." ++ pad_to_six (toString fp)

/-- The trailing-zero stripping of create_time_formatter: drop trailing
zeros, then one trailing decimal point. -/
def strip_time_string (s : String) : String :=
  let s := s.dropRightWhile (fun c => c == Char.ofNat 48)
  if s.endsWith "." then s.dropRight 1 else s

/-- create_time_formatter of render.py: divide by the scale, format
with percent-f, strip trailing zeros and a trailing point. -/
def create_time_formatter (config : Config) (time : ℚ) : String :=
  strip_time_string (format_fixed6 (time / config.scale))

/-- A level value as seen by render_level: either a scalar (single-bit
line) or a tuple of scalars (zipped bus). -/
inductive RLevel where
  | s (l : SLevel)
  | tup (ls : List SLevel)
deriving DecidableEq, Repr

/-- render_level of render.py: scalar levels 0 and 1 map directly to
the fixed low/high glyphs without consulting the renderer; any other
scalar fails the isinstance-tuple assert; a tuple is rendered to text
by the renderer, the text is suppressed when the estimated width does
not fit the scaled duration, and the result is wrapped in a data
glyph.  The renderer argument is None in the clock path. -/
def render_level (time : ℚ) (level : RLevel)
    (renderer : Option (List SLevel → Except PErr String)) (config : Config) :
    Except PErr String :=
  match level with
  | .s (.i 0) => .ok "L"
  | .s (.i 1) => .ok "H"
  | .s _ => .error .assertionError
  | .tup ls =>
      match renderer with
      | none => .error .typeError
      | some r => do
          let content ← r ls
          let length := min (content.length : ℚ) config.render_hide_char_limit
          let length := length * config.render_hide_char_scale + config.render_hide_margin
          let content := if time / config.scale < length then "" else content
          pure ("D\x7b" ++ content ++ "\x7d")

/-- render_unsigned_decimal of render.py: bit tuple to decimal text,
most significant bit first. -/
def render_unsigned_decimal (line : DisplayLine) (x : List SLevel) : Except PErr String := do
  let _ := line
  let n ← bits_to_int x
  pure (toString n)

/-- render_signed_decimal of render.py: subtract 2 to the width when
the first (most significant) element is truthy. -/
def render_signed_decimal (line : DisplayLine) (x : List SLevel) : Except PErr String := do
  let _ := line
  let n ← bits_to_int x
  let n := if slevel_truthy (x.headD (.i 0)) then n - 2 ^ x.length else n
  pure (toString n)

/-- Percent-x formatting of an integer: lowercase hex digits with a
sign for negative values. -/
def to_hex_string (n : ℤ) : String :=
  if n < 0 then "-" ++ (Nat.toDigits 16 n.natAbs).asString
  else (Nat.toDigits 16 n.toNat).asString

/-- The zero-padding loop of render_hexadecimal, prepending zeros while
four times the text length is below the bit width; written in closed
form. -/
def hex_zero_pad (res : String) (w : Nat) : String :=
  let target := (w + 3) / 4
  if res.length < target then String.mk (List.replicate (target - res.length) (Char.ofNat 48)) ++ res
  else res

/-- render_hexadecimal of render.py: hex text with configurable
nibble-zero-padding, uppercasing and 0x prefixing, applied in that
order. -/
def render_hexadecimal (config : Config) (line : DisplayLine) (x : List SLevel) :
    Except PErr String := do
  let _ := line
  let n ← bits_to_int x
  let res := to_hex_string n
  let res := if config.render_hex_zero_padding then hex_zero_pad res x.length else res
  let res := if config.render_hex_uppercase then res.toUpper else res
  let res := if config.render_hex_prefix_flag then "0x" ++ res else res
  pure res

/-- render_bit_string of render.py: the levels concatenated as text,
one character per tuple element. -/
def render_bit_string (line : DisplayLine) (x : List SLevel) : Except PErr String := do
  let _ := line
  pure (String.join (x.map slevel_str))

/-- The control-character name table of render_ascii. -/
def ASCII_SPECIAL : List String :=
  ["NUL", "SOH", "STX", "ETX", "EOT", "ENQ", "ACK", "BEL", "BS", "HT", "LF",
   "VT", "FF", "CR", "SO", "SI", "DLE", "DC1", "DC2", "DC3", "DC4", "NAK",
   "SYN", "ETB", "CAN", "EM", "S2", "ESC", "FS", "GS", "RS", "US"]

/-- The represent helper of render_ascii: control name for 0-31, DEL
for 127, a quoted literal character otherwise. -/
def ascii_represent (i : Nat) : String :=
  if i < 32 then ASCII_SPECIAL.getD i ""
  else if i = 127 then "DEL"
  else "\x27" ++ String.mk [Char.ofNat i] ++ "\x27"

/-- render_ascii of render.py: the code-point table covers 0-127; any
other value misses the mapping dictionary and raises KeyError. -/
def render_ascii (line : DisplayLine) (x : List SLevel) : Except PErr String := do
  let _ := line
  let n ← bits_to_int x
  if 0 ≤ n ∧ n < 128 then pure (ascii_represent n.toNat)
  else throw .keyError

/-- The NATIVE_RENDERERS dispatch of render.py, keyed by the radix tag;
an unknown radix raises KeyError. -/
def native_renderer (radix : String) (line : DisplayLine) (config : Config) :
    Except PErr (List SLevel → Except PErr String) :=
  if radix = "Unsigned" then .ok (render_unsigned_decimal line)
  else if radix = "Signed" then .ok (render_signed_decimal line)
  else if radix = "Hexadecimal" then .ok (render_hexadecimal config line)
  else if radix = "Binary" then .ok (render_bit_string line)
  else if radix = "ASCII" then .ok (render_ascii line)
  else .error .keyError

/-- create_renderer of render.py: the first positively matching custom
renderer wins, otherwise dispatch on the declared radix. -/
def create_renderer (line : DisplayLine) (config : Config) :
    Except PErr (List SLevel → Except PErr String) :=
  match config.custom_renderers.find? (fun p => match_node p.1 line.channel) with
  | some p => .ok (p.2 line)
  | none => native_renderer line.radix line config

/-- get_level_list of render.py: a leaf display line reads the raw
transition list of its channel from the signals mapping and flattens
it.  A missing channel raises KeyError; a signal whose transition list
was never set makes the flattener fail its isinstance asserts, as does
any malformed transition stanza. -/
def get_level_list (line : DisplayLine) (signals : List (String × Signal)) :
    Except PErr LevelList := do
  match line.children with
  | some _ => throw .assertionError
  | none =>
    match signals.lookup line.channel with
    | none => throw .keyError
    | some sig =>
      match sig.transition_list with
      | none => throw .assertionError
      | some st =>
        match convert_level_stanza st with
        | some l => pure l
        | none => throw .assertionError

/-- The two shapes get_line_level_lists can return: one scalar level
list, or a tuple of per-bit level lists. -/
inductive LineLevelLists where
  | single (l : LevelList)
  | bus (ls : List LevelList)

/-- get_line_level_lists of render.py: a line with children gathers one
level list per child; a clock-node leaf always stays scalar; a leaf
matching render_bit_as_bus is wrapped as a one-element bus; any other
leaf stays scalar. -/
def get_line_level_lists (line : DisplayLine) (signals : List (String × Signal))
    (config : Config) : Except PErr LineLevelLists :=
  match line.children with
  | some cs => (cs.mapM (fun c => get_level_list c signals)).map .bus
  | none =>
      if match_node config.clock_node line.channel then
        (get_level_list line signals).map .single
      else if match_node config.render_bit_as_bus line.channel then
        (get_level_list line signals).map (fun l => .bus [l])
      else
        (get_level_list line signals).map .single

/-- prepare_level_list of render.py: a bus is zipped into composite
tuple entries; the unknown-value hook is the identity. -/
def prepare_level_list (level_list : LineLevelLists) (line : DisplayLine)
    (config : Config) : Except PErr (List (ℚ × RLevel)) := do
  let _ := line
  let _ := config
  match level_list with
  | .bus ls => (zip_level_lists ls).map (fun p => p.1.map (fun q => (q.1, RLevel.tup q.2)))
  | .single l => pure (l.map (fun q => (q.1, RLevel.s q.2)))

/-- Lifts the Option result of the crop to the assert-failure error. -/
def crop_except (level_list : List (ℚ × RLevel)) (vp : ℚ × ℚ) :
    Except PErr (List (ℚ × RLevel)) :=
  match crop_level_list level_list vp with
  | some l => pure l
  | none => throw .assertionError

/-- render_level_list of render.py: crop to the viewport when one is
configured, return the empty string for an empty list, otherwise join
the formatted-time-plus-glyph tokens with spaces. -/
def render_level_list (level_list : List (ℚ × RLevel)) (line : DisplayLine)
    (config : Config) : Except PErr String := do
  let level_list ← match config.viewport with
    | some vp => crop_except level_list vp
    | none => pure level_list
  if level_list.length = 0 then pure "" else do
  let renderer ← create_renderer line config
  let parts ← level_list.mapM
    (fun p => (render_level p.1 p.2 (some renderer) config).map
      (fun g => create_time_formatter config p.1 ++ g))
  pure (String.intercalate " " parts)

/-- The body of the per-entry loop of render_clock_level_list: the
level must be 0 or 1 and differ from the previous one, and contributes
a formatted time with a plain C edge glyph. -/
def clock_step (config : Config) (acc : String × RLevel) (p : ℚ × RLevel) :
    Except PErr (String × RLevel) :=
  if (p.2 = .s (.i 0) ∨ p.2 = .s (.i 1)) ∧ p.2 ≠ acc.2 then
    pure (acc.1 ++ " " ++ create_time_formatter config p.1 ++ "C", p.2)
  else throw .assertionError

/-- The part of render_clock_level_list after the viewport crop: an
empty list renders as the empty string; the first level must be 0 or 1
and is rendered through render_level with a None renderer; every
further level goes through the clock_step loop. -/
def render_clock_after_crop (level_list : List (ℚ × RLevel)) (config : Config) :
    Except PErr String :=
  match level_list with
  | [] => pure ""
  | (first_time, first_level) :: rest => do
    if ¬ (first_level = .s (.i 0) ∨ first_level = .s (.i 1)) then throw .assertionError else do
    let head ← render_level first_time first_level none config
    let step ← rest.foldlM (clock_step config)
      (create_time_formatter config first_time ++ head, first_level)
    pure step.1

/-- render_clock_level_list of render.py: crop to the viewport when one
is configured, then render via render_clock_after_crop. -/
def render_clock_level_list (level_list : List (ℚ × RLevel)) (line : DisplayLine)
    (config : Config) : Except PErr String := do
  let _ := line
  let level_list ← match config.viewport with
    | some vp => crop_except level_list vp
    | none => pure level_list
  render_clock_after_crop level_list config

/-- render_display_line of render.py: gather level lists, prepare them,
and dispatch to the no-slope clock renderer exactly for a non-bus
clock-node line when clock_no_slope is enabled. -/
def render_display_line (line : DisplayLine) (signals : List (String × Signal))
    (config : Config) : Except PErr String := do
  let lls ← get_line_level_lists line signals config
  let is_bus := match lls with | .bus _ => true | .single _ => false
  let prepared ← prepare_level_list lls line config
  if !is_bus && match_node config.clock_node line.channel && config.clock_no_slope then
    render_clock_level_list prepared line config
  else
    render_level_list prepared line config

/-- Python set insertion, embedded as append-if-absent on a list; the
unspecified iteration order of a Python set is idealized as insertion
order. -/
def set_add (hl : List ℚ) (t : ℚ) : List ℚ :=
  if t ∈ hl then hl else hl ++ [t]

/-- The per-line body of get_clock_lines: skip a line whose channel
does not match the clock-node pattern; otherwise flatten its level
list and record the accumulated start time of every entry whose level
equals the target level. -/
def get_clock_lines_step (signals : List (String × Signal)) (config : Config)
    (target : ℤ) (hl : List ℚ) (line : DisplayLine) : Except PErr (List ℚ) :=
  if !match_node config.clock_node line.channel then pure hl
  else do
    let ll ← get_level_list line signals
    let step := ll.foldl
      (fun (acc : List ℚ × ℚ) p =>
        ((if p.2 = .i target then set_add acc.1 acc.2 else acc.1), acc.2 + p.1))
      (hl, 0)
    pure step.1

/-- get_clock_lines of render.py: when the clock_lines option is set,
walk the given display lines (only the list passed in; children are
never visited) with get_clock_lines_step, the target level being 1 for
rising and 0 for falling. -/
def get_clock_lines (help_lines : List ℚ) (display_lines : List DisplayLine)
    (signals : List (String × Signal)) (config : Config) : Except PErr (List ℚ) :=
  match config.clock_lines with
  | none => .ok help_lines
  | some mode => do
    let target : ℤ ← if mode = "rising" then pure 1
      else if mode = "falling" then pure 0
      else throw .keyError
    display_lines.foldlM (get_clock_lines_step signals config target) help_lines

/-- render_help_lines of render.py: when a viewport is configured, keep
only times strictly inside it and shift them to viewport-relative
coordinates; format every time and join with commas into one vertlines
directive. -/
def render_help_lines (help_lines : List ℚ) (config : Config) : String :=
  let hl := match config.viewport with
    | some vp => (help_lines.filter (fun t => vp.1 < t ∧ t < vp.2)).map (fun t => t - vp.1)
    | none => help_lines
  let arg := String.intercalate "," (hl.map (create_time_formatter config))
  "\\vertlines[help lines]\x7b" ++ arg ++ "\x7d"

/-- Whether a stanza is an Assignment. -/
def Stanza.isAssignment : Stanza → Bool
  | .assignment _ _ => true
  | _ => false

/-- A schema-complete single-bit SIGNAL block body used in concrete
runs. -/
def sig_contents : List Stanza :=
  [.assignment "VALUE_TYPE" (.ident "NINE_LEVEL_BIT"),
   .assignment "SIGNAL_TYPE" (.ident "SINGLE_BIT"),
   .assignment "WIDTH" (.int 1),
   .assignment "LSB_INDEX" (.int (-1)),
   .assignment "DIRECTION" (.ident "INPUT"),
   .assignment "PARENT" (.str "")]

/-- A schema-complete header block violating the fixed-configuration
invariant (VERSION is 2, not 1). -/
def bad_header_block : Stanza :=
  .block "HEADER" none
    [.assignment "VERSION" (.int 2),
     .assignment "TIME_UNIT" (.ident "ns"),
     .assignment "DATA_OFFSET" (.dec 0),
     .assignment "DATA_DURATION" (.dec 100),
     .assignment "SIMULATION_TIME" (.dec 100),
     .assignment "GRID_PHASE" (.dec 0),
     .assignment "GRID_PERIOD" (.dec 10),
     .assignment "GRID_DUTY_CYCLE" (.int 50)]

/-- A header block satisfying the invariant but carrying one leftover
non-assignment child. -/
def leftover_header_block : Stanza :=
  .block "HEADER" none
    [.assignment "VERSION" (.int 1),
     .assignment "TIME_UNIT" (.ident "ns"),
     .assignment "DATA_OFFSET" (.dec 0),
     .assignment "DATA_DURATION" (.dec 100),
     .assignment "SIMULATION_TIME" (.dec 100),
     .assignment "GRID_PHASE" (.dec 0),
     .assignment "GRID_PERIOD" (.dec 10),
     .assignment "GRID_DUTY_CYCLE" (.int 50),
     .block "FOO" none []]

/-- Strict 0/1 alternation of a level-list tail relative to the
previous level, the validity condition of the no-slope clock loop. -/
def clock_alt_ok : RLevel → List (ℚ × RLevel) → Bool
  | _, [] => true
  | last, p :: rest =>
      if (p.2 = .s (.i 0) ∨ p.2 = .s (.i 1)) ∧ p.2 ≠ last then clock_alt_ok p.2 rest
      else false

/-- The last level reached by a walk over the tail. -/
def clock_last : RLevel → List (ℚ × RLevel) → RLevel
  | last, [] => last
  | _, p :: rest => clock_last p.2 rest

/-- The tail emission of the no-slope clock rendering: one space, the
formatted time and a plain C edge glyph per entry. -/
def clock_tail_render (config : Config) : List (ℚ × RLevel) → String
  | [] => ""
  | p :: rest => " " ++ create_time_formatter config p.1 ++ "C" ++ clock_tail_render config rest

/-- The level glyph of a 0 or 1 scalar level. -/
def glyph01 : RLevel → String
  | .s (.i 0) => "L"
  | .s (.i 1) => "H"
  | _ => ""

/-- Closed form of the no-slope clock rendering of an already cropped
level list, following the specification: the first level must be 0 or
1 and is emitted as its level glyph, every subsequent level must
strictly alternate and is emitted as a plain edge glyph, and any
violation is the defined assertion error. -/
def clock_render_result (cl : List (ℚ × RLevel)) (config : Config) : Except PErr String :=
  match cl with
  | [] => .ok ""
  | (t0, l0) :: rest =>
      if (l0 = .s (.i 0) ∨ l0 = .s (.i 1)) ∧ clock_alt_ok l0 rest then
        .ok (create_time_formatter config t0 ++ glyph01 l0 ++ clock_tail_render config rest)
      else .error .assertionError

/-- A configuration with scale one, no viewport, a clk clock node and
the no-slope option enabled. -/
def cfg_c7 : Config :=
  { scale := 1, viewport := none, clock_node := .str "clk", clock_no_slope := true,
    clock_lines := none, render_bit_as_bus := .other,
    render_hex_prefix_flag := true, render_hex_uppercase := true,
    render_hex_zero_padding := true, render_hide_char_scale := 1 / 2,
    render_hide_char_limit := 8, render_hide_margin := 0, custom_renderers := [] }

/-- A clk signal whose transition list flattens to two consecutive
level-1 entries, violating strict alternation. -/
def clk_repeat_signals : List (String × Signal) :=
  [("clk", { direction := "input", value_type := "NINE_LEVEL_BIT", width := 1,
             parent := none,
             transition_list := some (.block "NODE" none
               [.assignment "REPEAT" (.int 1),
                .levelStatement (.i 1) 5, .levelStatement (.i 1) 5]) })]

/-- Overwrites the expansion flag of a display line. -/
def set_expanded (e : Bool) : DisplayLine → DisplayLine
  | .mk c r _ cs => .mk c r e cs

/-- A clock-helper configuration: rising edges of channel clk, scale
one, no viewport. -/
def cfg_c8 : Config :=
  { scale := 1, viewport := none, clock_node := .str "clk", clock_no_slope := true,
    clock_lines := some "rising", render_bit_as_bus := .other,
    render_hex_prefix_flag := true, render_hex_uppercase := true,
    render_hex_zero_padding := true, render_hide_char_scale := 1 / 2,
    render_hide_char_limit := 8, render_hide_margin := 0, custom_renderers := [] }

/-- The same configuration with a (3, 16) viewport. -/
def cfg_c8vp : Config := { cfg_c8 with viewport := some (3, 16) }

/-- A clk signal whose transition list flattens to
[(5,0),(5,1),(5,0),(5,1)]. -/
def c8_signals : List (String × Signal) :=
  [("clk", { direction := "input", value_type := "NINE_LEVEL_BIT", width := 1,
             parent := none,
             transition_list := some (.block "NODE" none
               [.assignment "REPEAT" (.int 2),
                .levelStatement (.i 0) 5, .levelStatement (.i 1) 5]) })]

/-- A forest whose only root has a non-clock channel but whose child is
the clk display line. -/
def c8_forest : List DisplayLine :=
  [.mk "a" "Unsigned" true (some [.mk "clk" "Unsigned" false none])]

/-! Helper definitions and lemmas about the zip loop. -/

/-- Total duration of a level list. -/
def dur_sum {α : Type} (l : List (ℚ × α)) : ℚ := (l.map Prod.fst).sum

/-- A per-list zip update never grows a list. -/
theorem zip_update_length_le (time : ℚ) (l : LevelList) :
    (zip_update time l).length ≤ l.length := by
  match l with
  | [] => simp [zip_update]
  | (d, v) :: rest =>
      simp only [zip_update]
      split <;> simp

/-- Folding min never exceeds the initial value. -/
theorem foldl_min_le_init (xs : List ℚ) (a : ℚ) : xs.foldl min a ≤ a := by
  induction xs generalizing a with
  | nil => simp
  | cons x xs ih => exact le_trans (ih (min a x)) (min_le_left a x)

/-- Folding min never exceeds any member. -/
theorem foldl_min_le_mem (xs : List ℚ) (a x : ℚ) (hx : x ∈ xs) : xs.foldl min a ≤ x := by
  induction xs generalizing a with
  | nil => cases hx
  | cons y ys ih =>
      rcases List.mem_cons.mp hx with h | h
      · subst h
        exact le_trans (foldl_min_le_init ys (min a x)) (min_le_right a x)
      · exact ih (min a y) h

/-- Folding min returns the initial value or some member. -/
theorem foldl_min_choice (xs : List ℚ) (a : ℚ) :
    xs.foldl min a = a ∨ ∃ x ∈ xs, xs.foldl min a = x := by
  induction xs generalizing a with
  | nil => exact Or.inl rfl
  | cons y ys ih =>
      rcases ih (min a y) with h | ⟨x, hx, hfx⟩
      · rcases min_choice a y with hm | hm
        · exact Or.inl (by simp only [List.foldl_cons]; rw [h, hm])
        · exact Or.inr ⟨y, List.mem_cons_self y ys, by simp only [List.foldl_cons]; rw [h, hm]⟩
      · exact Or.inr ⟨x, List.mem_cons_of_mem y hx, by simpa using hfx⟩

/-- The min over the head durations bounds each head duration. -/
theorem min_head_le (lists : List LevelList) (l : LevelList) (hl : l ∈ lists) :
    min_head lists ≤ head_dur l := by
  match lists with
  | [] => cases hl
  | l0 :: rest =>
      have hfold : rest.foldl (fun m l2 => min m (head_dur l2)) (head_dur l0) =
          (rest.map head_dur).foldl min (head_dur l0) := by
        rw [List.foldl_map]
      rcases List.mem_cons.mp hl with h | h
      · subst h
        simpa [min_head, hfold] using foldl_min_le_init (rest.map head_dur) (head_dur l)
      · have : (rest.map head_dur).foldl min (head_dur l0) ≤ head_dur l :=
          foldl_min_le_mem _ _ _ (List.mem_map_of_mem head_dur h)
        simpa [min_head, hfold] using this

/-- The min over the head durations is attained by some list. -/
theorem min_head_attained (lists : List LevelList) (h : lists ≠ []) :
    ∃ l ∈ lists, min_head lists = head_dur l := by
  match lists with
  | [] => exact absurd rfl h
  | l0 :: rest =>
      have hfold : min_head (l0 :: rest) = (rest.map head_dur).foldl min (head_dur l0) := by
        simp only [min_head]
        rw [List.foldl_map]
      rcases foldl_min_choice (rest.map head_dur) (head_dur l0) with hc | ⟨x, hx, hfx⟩
      · exact ⟨l0, List.mem_cons_self l0 rest, by rw [hfold, hc]⟩
      · rcases List.mem_map.mp hx with ⟨l2, hl2, hxl2⟩
        exact ⟨l2, List.mem_cons_of_mem l0 hl2, by rw [hfold, hfx, hxl2]⟩

/-- total_len distributes over cons. -/
theorem total_len_cons (l : LevelList) (ls : List LevelList) :
    total_len (l :: ls) = l.length + total_len ls := by
  simp [total_len]

/-- Pointwise non-growing maps do not grow the total length. -/
theorem total_len_map_le (lists : List LevelList) (f : LevelList → LevelList)
    (hle : ∀ l ∈ lists, (f l).length ≤ l.length) :
    total_len (lists.map f) ≤ total_len lists := by
  induction lists with
  | nil => simp [total_len]
  | cons l0 rest ih =>
      have h0 := hle l0 (List.mem_cons_self l0 rest)
      have hr := ih (fun l hl => hle l (List.mem_cons_of_mem l0 hl))
      simp only [List.map_cons, total_len_cons]
      omega

/-- A pointwise non-growing map that strictly shrinks one member
strictly shrinks the total length. -/
theorem total_len_map_lt (lists : List LevelList) (f : LevelList → LevelList)
    (hle : ∀ l ∈ lists, (f l).length ≤ l.length)
    (hlt : ∃ l ∈ lists, (f l).length < l.length) :
    total_len (lists.map f) < total_len lists := by
  induction lists with
  | nil => simp at hlt
  | cons l0 rest ih =>
      have h0 := hle l0 (List.mem_cons_self l0 rest)
      have hrle := total_len_map_le rest f (fun l hl => hle l (List.mem_cons_of_mem l0 hl))
      rcases hlt with ⟨l, hl, hfl⟩
      rcases List.mem_cons.mp hl with h | h
      · subst h
        simp only [List.map_cons, total_len_cons]
        omega
      · have hr := ih (fun l2 hl2 => hle l2 (List.mem_cons_of_mem l0 hl2)) ⟨l, h, hfl⟩
        simp only [List.map_cons, total_len_cons]
        omega

/-- The zip step strictly decreases the total length: the head that
attains the min is dropped. -/
theorem total_len_update_lt (lists : List LevelList) (hne : lists ≠ [])
    (hall : ∀ l ∈ lists, l ≠ []) :
    total_len (lists.map (zip_update (min_head lists))) < total_len lists := by
  apply total_len_map_lt
  · exact fun l _ => zip_update_length_le _ l
  · rcases min_head_attained lists hne with ⟨l, hl, hmin⟩
    refine ⟨l, hl, ?_⟩
    match l, hall l hl with
    | (d, v) :: rest, _ =>
        have hd : min_head lists = d := by simpa [head_dur] using hmin
        simp [zip_update, hd]

/-- The all-nonempty loop condition of zip_go, as a membership
statement. -/
theorem all_nonempty_iff (lists : List LevelList) :
    lists.all (fun l => !l.isEmpty) = true ↔ ∀ l ∈ lists, l ≠ [] := by
  simp [List.all_eq_true, List.isEmpty_iff]

/-- Once some list is exhausted, zip_go stops regardless of fuel. -/
theorem zip_go_stop (lists : List LevelList)
    (h : lists.all (fun l => !l.isEmpty) = false) (fuel : Nat) :
    zip_go fuel lists = ([], lists) := by
  cases fuel with
  | zero => rfl
  | succ f => simp [zip_go, h]

/-- Unfolding of one zip_go iteration while every list is nonempty. -/
theorem zip_go_succ (lists : List LevelList) (fuel : Nat)
    (h : lists.all (fun l => !l.isEmpty) = true) :
    zip_go (fuel + 1) lists =
      ((min_head lists, lists.map head_level) ::
          (zip_go fuel (lists.map (zip_update (min_head lists)))).1,
        (zip_go fuel (lists.map (zip_update (min_head lists)))).2) := by
  simp [zip_go, h]

/-- A nonempty collection of nonempty lists has positive total
length. -/
theorem total_len_pos (lists : List LevelList) (hne : lists ≠ [])
    (hall : ∀ l ∈ lists, l ≠ []) : 1 ≤ total_len lists := by
  match lists with
  | [] => exact absurd rfl hne
  | l0 :: rest =>
      have h0 : l0 ≠ [] := hall l0 (List.mem_cons_self l0 rest)
      have : 1 ≤ l0.length := List.length_pos.mpr h0
      rw [total_len_cons]
      omega

/-- zip_go is independent of the fuel once the fuel covers the total
length of a nonempty collection. -/
theorem zip_go_congr (f1 : Nat) : ∀ (f2 : Nat) (lists : List LevelList),
    total_len lists ≤ f1 → total_len lists ≤ f2 → lists ≠ [] →
    zip_go f1 lists = zip_go f2 lists := by
  induction f1 with
  | zero =>
      intro f2 lists h1 _ hne
      have hstop : lists.all (fun l => !l.isEmpty) = false := by
        match lists with
        | [] => exact absurd rfl hne
        | l0 :: rest =>
            have : l0.length = 0 := by
              have := total_len_cons l0 rest
              omega
            have h0 : l0.isEmpty = true := by
              simpa [List.isEmpty_iff] using List.length_eq_zero.mp this
            simp [List.all_cons, h0]
      rw [zip_go_stop lists hstop 0, zip_go_stop lists hstop f2]
  | succ a ih =>
      intro f2 lists h1 h2 hne
      cases hcond : lists.all (fun l => !l.isEmpty) with
      | false => rw [zip_go_stop lists hcond, zip_go_stop lists hcond]
      | true =>
          have hall : ∀ l ∈ lists, l ≠ [] := (all_nonempty_iff lists).mp hcond
          have hpos : 1 ≤ total_len lists := total_len_pos lists hne hall
          cases f2 with
          | zero => omega
          | succ b =>
              rw [zip_go_succ lists a hcond, zip_go_succ lists b hcond]
              have hlt := total_len_update_lt lists hne hall
              have hne2 : lists.map (zip_update (min_head lists)) ≠ [] := by
                simpa using hne
              have := ih b (lists.map (zip_update (min_head lists)))
                (by omega) (by omega) hne2
              rw [this]

/-- A nonempty list of positive durations has positive total
duration. -/
theorem dur_sum_pos {α : Type} (l : List (ℚ × α)) (hpos : ∀ p ∈ l, 0 < p.1)
    (hne : l ≠ []) : 0 < dur_sum l := by
  match l with
  | [] => exact absurd rfl hne
  | p :: rest =>
      have h0 : 0 < p.1 := hpos p (List.mem_cons_self p rest)
      have hr : 0 ≤ dur_sum rest := by
        have : ∀ q ∈ rest.map Prod.fst, 0 ≤ q := by
          intro q hq
          rcases List.mem_map.mp hq with ⟨x, hx, hxq⟩
          exact hxq ▸ le_of_lt (hpos x (List.mem_cons_of_mem p hx))
        exact List.sum_nonneg this
      have : dur_sum (p :: rest) = p.1 + dur_sum rest := by simp [dur_sum]
      rw [this]
      linarith

/-- Durations stay positive through a zip update that subtracts at most
the head duration. -/
theorem zip_update_pos (time : ℚ) (l : LevelList) (hpos : ∀ p ∈ l, 0 < p.1)
    (hle : time ≤ head_dur l) : ∀ p ∈ zip_update time l, 0 < p.1 := by
  match l with
  | [] => intro p hp; simp [zip_update] at hp
  | (d, v) :: rest =>
      intro p hp
      simp only [zip_update] at hp
      split at hp
      · exact hpos p (List.mem_cons_of_mem _ hp)
      · rcases List.mem_cons.mp hp with h | h
        · have hd : time ≤ d := by simpa [head_dur] using hle
          rename_i hne0
          have : p.1 = d - time := by rw [h]
          rw [this]
          rcases lt_or_eq_of_le hd with hlt | heq
          · linarith
          · exact absurd (by rw [← heq]; ring) hne0
        · exact hpos p (List.mem_cons_of_mem _ h)

/-- A zip update subtracts exactly the step from the total duration. -/
theorem zip_update_dur_sum (time : ℚ) (l : LevelList) (hne : l ≠ [])
    (_hle : time ≤ head_dur l) :
    dur_sum (zip_update time l) = dur_sum l - time := by
  match l with
  | [] => exact absurd rfl hne
  | (d, v) :: rest =>
      simp only [zip_update]
      split
      · rename_i h0
        have : d = time := by linarith [sub_eq_zero.mp h0]
        simp [dur_sum, this]
      · simp [dur_sum]
        ring

/-- A collection whose members are all empty is fixed by the constant
empty map. -/
theorem map_const_nil (lists : List LevelList) (h : ∀ l ∈ lists, l = []) :
    lists.map (fun _ => ([] : LevelList)) = lists := by
  induction lists with
  | nil => rfl
  | cons l0 rest ih =>
      have h0 := h l0 (List.mem_cons_self l0 rest)
      simp [h0, ih (fun l hl => h l (List.mem_cons_of_mem l0 hl))]

/-- Each member contributes at most the total length. -/
theorem length_le_total_len (lists : List LevelList) (l : LevelList) (hl : l ∈ lists) :
    l.length ≤ total_len lists := by
  induction lists with
  | nil => cases hl
  | cons l0 rest ih =>
      rw [total_len_cons]
      rcases List.mem_cons.mp hl with h | h
      · subst h; omega
      · have := ih h; omega

/-- When every list has positive durations and all totals agree, the
zip loop drains every list completely: the final state is all-empty. -/
theorem zip_final_empty (fuel : Nat) : ∀ (lists : List LevelList),
    total_len lists ≤ fuel → lists ≠ [] →
    (∀ l ∈ lists, ∀ p ∈ l, 0 < p.1) →
    (∀ l1 ∈ lists, ∀ l2 ∈ lists, dur_sum l1 = dur_sum l2) →
    (zip_go fuel lists).2 = lists.map (fun _ => []) := by
  induction fuel with
  | zero =>
      intro lists h1 _hne _ _
      have hall0 : ∀ l ∈ lists, l = [] := by
        intro l hl
        have hle := length_le_total_len lists l hl
        exact List.length_eq_zero.mp (by omega)
      rw [map_const_nil lists hall0]
      rfl
  | succ a ih =>
      intro lists h1 hne hpos hsum
      cases hcond : lists.all (fun l => !l.isEmpty) with
      | false =>
          rw [zip_go_stop lists hcond]
          have hex : ∃ l ∈ lists, l = [] := by
            rcases (List.all_eq_false).mp hcond with ⟨l, hl, hfl⟩
            exact ⟨l, hl, by simpa [List.isEmpty_iff] using hfl⟩
          rcases hex with ⟨l0, hl0, hl0e⟩
          have hzero : dur_sum l0 = 0 := by simp [hl0e, dur_sum]
          have hall0 : ∀ l ∈ lists, l = [] := by
            intro l hl
            by_contra hlne
            have : 0 < dur_sum l := dur_sum_pos l (hpos l hl) hlne
            have := hsum l hl l0 hl0
            rw [hzero] at this
            linarith
          exact (map_const_nil lists hall0).symm
      | true =>
          have hall : ∀ l ∈ lists, l ≠ [] := (all_nonempty_iff lists).mp hcond
          rw [zip_go_succ lists a hcond]
          have hlt := total_len_update_lt lists hne hall
          have hne2 : lists.map (zip_update (min_head lists)) ≠ [] := by simpa using hne
          have hpos2 : ∀ l ∈ lists.map (zip_update (min_head lists)), ∀ p ∈ l, 0 < p.1 := by
            intro l hl
            rcases List.mem_map.mp hl with ⟨l0, hl0, hml⟩
            exact hml ▸ zip_update_pos _ l0 (hpos l0 hl0) (min_head_le lists l0 hl0)
          have hsum2 : ∀ l1 ∈ lists.map (zip_update (min_head lists)),
              ∀ l2 ∈ lists.map (zip_update (min_head lists)), dur_sum l1 = dur_sum l2 := by
            intro l1 hl1 l2 hl2
            rcases List.mem_map.mp hl1 with ⟨a1, ha1, hm1⟩
            rcases List.mem_map.mp hl2 with ⟨a2, ha2, hm2⟩
            rw [← hm1, ← hm2,
              zip_update_dur_sum _ a1 (hall a1 ha1) (min_head_le lists a1 ha1),
              zip_update_dur_sum _ a2 (hall a2 ha2) (min_head_le lists a2 ha2),
              hsum a1 ha1 a2 ha2]
          have := ih (lists.map (zip_update (min_head lists))) (by omega) hne2 hpos2 hsum2
          rw [this, List.map_map]
          simp [Function.comp_def]

/-! Lemmas about viewport cropping. -/

/-- A level list whose total duration lies at or before the window
start is dropped entirely. -/
theorem crop_go_all_skipped {α : Type} (levels : List (ℚ × α)) :
    ∀ (start duration : ℚ), (∀ p ∈ levels, 0 < p.1) → dur_sum levels ≤ start →
    crop_go start duration levels = some [] := by
  induction levels with
  | nil => intro start duration _ _; rfl
  | cons p rest ih =>
      intro start duration hpos hsum
      obtain ⟨t, l⟩ := p
      have ht : 0 < t := hpos (t, l) (List.mem_cons_self _ rest)
      have hsr : 0 ≤ dur_sum rest := by
        apply List.sum_nonneg
        intro q hq
        rcases List.mem_map.mp hq with ⟨x, hx, hxq⟩
        exact hxq ▸ le_of_lt (hpos x (List.mem_cons_of_mem _ hx))
      have hdsum : dur_sum ((t, l) :: rest) = t + dur_sum rest := by simp [dur_sum]
      rw [hdsum] at hsum
      simp only [crop_go]
      rw [if_neg (by linarith), if_pos ⟨by linarith, by linarith⟩]
      exact ih (start - t) duration (fun q hq => hpos q (List.mem_cons_of_mem _ hq))
        (by linarith)

/-- The retained duration of a crop never exceeds the window
duration. -/
theorem crop_go_dur_le {α : Type} (levels : List (ℚ × α)) :
    ∀ (start duration : ℚ) (r : List (ℚ × α)), 0 ≤ duration →
    crop_go start duration levels = some r → dur_sum r ≤ duration := by
  induction levels with
  | nil =>
      intro start duration r hd hr
      simp only [crop_go, Option.some.injEq] at hr
      simp [← hr, dur_sum, hd]
  | cons p rest ih =>
      intro start duration r hd hr
      obtain ⟨t, l⟩ := p
      simp only [crop_go] at hr
      by_cases hneg : t < 0
      · rw [if_pos hneg] at hr; cases hr
      rw [if_neg hneg] at hr
      by_cases hskip : 0 < start ∧ 0 ≤ start - t
      · rw [if_pos hskip] at hr
        exact ih (start - t) duration r hd hr
      rw [if_neg hskip] at hr
      by_cases hdz : duration = 0
      · rw [if_pos hdz] at hr
        simp only [Option.some.injEq] at hr
        simp [← hr, dur_sum, hd]
      rw [if_neg hdz] at hr
      set t1 := if 0 < start then -(start - t) else t with ht1
      set t2 := if duration < t1 then duration else t1 with ht2
      have ht1nn : 0 ≤ t1 := by
        rw [ht1]
        split
        · rename_i hst
          have : ¬ 0 ≤ start - t := fun hc => hskip ⟨hst, hc⟩
          linarith
        · linarith
      have ht2le : t2 ≤ duration := by
        rw [ht2]
        split
        · linarith
        · rename_i hnd; linarith [not_lt.mp hnd]
      have ht2nn : 0 ≤ t2 := by
        rw [ht2]
        split
        · exact hd
        · exact ht1nn
      rcases Option.map_eq_some'.mp hr with ⟨r2, hr2, hrr⟩
      have := ih _ (duration - t2) r2 (by linarith) hr2
      have hds : dur_sum r = t2 + dur_sum r2 := by simp [← hrr, dur_sum]
      linarith

/-- Claim C5: cropping a level list to a (start, end) viewport drops
entries wholly before start, truncates the entry straddling start,
caps the total retained duration at end minus start, and yields an
empty sequence when the window lies entirely past the total duration
of the list; in particular cropping [(10,0),(10,1)] to (5,12) yields
[(5,0),(2,1)]. -/
theorem C5_crop_viewport :
    crop_level_list [((10 : ℚ), SLevel.i 0), (10, .i 1)] (5, 12) =
      some [(5, .i 0), (2, .i 1)] ∧
    (∀ (levels : LevelList) (start e : ℚ), (∀ p ∈ levels, 0 < p.1) →
      dur_sum levels ≤ start → crop_level_list levels (start, e) = some []) ∧
    (∀ (levels : LevelList) (vp : ℚ × ℚ) (r : LevelList), vp.1 ≤ vp.2 →
      crop_level_list levels vp = some r → dur_sum r ≤ vp.2 - vp.1) := by
  refine ⟨by with_unfolding_all rfl, ?_, ?_⟩
  · intro levels start e hpos hs
    exact crop_go_all_skipped levels start (e - start) hpos hs
  · intro levels vp r hle hr
    exact crop_go_dur_le levels vp.1 (vp.2 - vp.1) r (by linarith) hr

/-- Witness for C5 at concrete inputs: a window past the total duration
gives the empty crop, and the cap bound holds for the concrete cropped
result. -/
theorem C5_crop_viewport_witness :
    crop_level_list [((2 : ℚ), SLevel.i 0)] (5, 9) = some [] ∧
    dur_sum ([(5, SLevel.i 0), (2, .i 1)] : LevelList) ≤ 12 - 5 :=
  ⟨C5_crop_viewport.2.1 [(2, .i 0)] 5 9 (by decide) (by norm_num [dur_sum]),
   C5_crop_viewport.2.2 [(10, .i 0), (10, .i 1)] (5, 12) [(5, .i 0), (2, .i 1)]
     (by norm_num) (by with_unfolding_all rfl)⟩

/-- Claim C4: for a nonempty collection of nonempty level lists, bus
synchronization emits one composite entry (minimum head duration,
tuple of current levels), subtracts that step from every head dropping
heads that reach exactly zero, and stops as soon as any list is
exhausted with no error; in particular zipping [(3,0),(2,1)] with
[(1,0),(4,1)] yields [(1,(0,0)),(2,(0,1)),(2,(1,1))]. -/
theorem C4_zip_synchronization :
    (∀ lists : List LevelList, lists ≠ [] → (∀ l ∈ lists, l ≠ []) →
      zip_level_lists lists =
        (zip_level_lists (lists.map (zip_update (min_head lists)))).map
          (fun p => ((min_head lists, lists.map head_level) :: p.1, p.2))) ∧
    (∀ lists : List LevelList, lists ≠ [] → (∃ l ∈ lists, l = []) →
      zip_level_lists lists = .ok ([], lists)) ∧
    zip_level_lists [[(3, .i 0), (2, .i 1)], [(1, .i 0), (4, .i 1)]] =
      .ok ([(1, [.i 0, .i 0]), (2, [.i 0, .i 1]), (2, [.i 1, .i 1])], [[], []]) := by
  refine ⟨?_, ?_, by with_unfolding_all rfl⟩
  · intro lists hne hall
    have hcond : lists.all (fun l => !l.isEmpty) = true := (all_nonempty_iff lists).mpr hall
    have hlen : ¬ lists.length = 0 := fun h => hne (List.length_eq_zero.mp h)
    have hlen2 : ¬ (lists.map (zip_update (min_head lists))).length = 0 := by
      simpa using hlen
    have hpos : 1 ≤ total_len lists := total_len_pos lists hne hall
    obtain ⟨k, hk⟩ : ∃ k, total_len lists = k + 1 := ⟨total_len lists - 1, by omega⟩
    have hlt := total_len_update_lt lists hne hall
    have hne2 : lists.map (zip_update (min_head lists)) ≠ [] := by simpa using hne
    simp only [zip_level_lists, if_neg hlen, if_neg hlen2]
    rw [hk, zip_go_succ lists k hcond]
    rw [zip_go_congr k (total_len (lists.map (zip_update (min_head lists))))
      (lists.map (zip_update (min_head lists))) (by omega) (le_refl _) hne2]
    rfl
  · intro lists hne hex
    have hlen : ¬ lists.length = 0 := fun h => hne (List.length_eq_zero.mp h)
    rcases hex with ⟨l, hl, hle⟩
    have hcond : lists.all (fun l2 => !l2.isEmpty) = false := by
      apply List.all_eq_false.mpr
      exact ⟨l, hl, by simp [hle]⟩
    simp only [zip_level_lists, if_neg hlen]
    rw [zip_go_stop lists hcond]

/-- Witness for C4 at concrete inputs: one unfolding step of the zip of
two singleton lists, and the stop case when one list is already
empty. -/
theorem C4_zip_synchronization_witness :
    zip_level_lists [[((2 : ℚ), SLevel.i 0)], [(3, .i 1)]] =
      (zip_level_lists ([[((2 : ℚ), SLevel.i 0)], [(3, .i 1)]].map
          (zip_update (min_head [[((2 : ℚ), SLevel.i 0)], [(3, .i 1)]])))).map
        (fun p => ((min_head [[((2 : ℚ), SLevel.i 0)], [(3, .i 1)]],
          [[((2 : ℚ), SLevel.i 0)], [(3, .i 1)]].map head_level) :: p.1, p.2)) ∧
    zip_level_lists [[], [((1 : ℚ), SLevel.i 0)]] = .ok ([], [[], [(1, .i 0)]]) :=
  ⟨C4_zip_synchronization.1 _ (by simp) (by simp),
   C4_zip_synchronization.2.1 _ (by simp) ⟨[], by simp, rfl⟩⟩

/-- Monadic bind on a successful Except value. -/
theorem except_bind_ok {e a b : Type} (x : a) (f : a → Except e b) :
    (Except.ok x : Except e a) >>= f = f x := rfl

/-- Monadic bind on a failed Except value. -/
theorem except_bind_error {e a b : Type} (err : e) (f : a → Except e b) :
    (Except.error err : Except e a) >>= f = Except.error err := rfl

/-- Monadic pure for Except is ok. -/
theorem except_pure {e a : Type} (x : a) : (pure x : Except e a) = Except.ok x := rfl

/-- The residual list of the consume_attributes fold is the input with
its assignments filtered out, appended to the accumulator. -/
theorem consume_attributes_residual_go (contents : List Stanza) :
    ∀ (acc1 : List Stanza) (acc2 : Attrs) (res : List Stanza) (attrs : Attrs),
    contents.foldlM consume_attributes_step (acc1, acc2) = .ok (res, attrs) →
    res = acc1 ++ contents.filter (fun s => ! s.isAssignment) := by
  induction contents with
  | nil =>
      intro acc1 acc2 res attrs h
      simp only [List.foldlM_nil] at h
      have : acc1 = res := by
        cases h
        rfl
      simp [← this]
  | cons s rest ih =>
      intro acc1 acc2 res attrs h
      rw [List.foldlM_cons] at h
      cases s with
      | assignment k v =>
          by_cases hdup : ((acc2.lookup k).isSome : Bool)
          · simp [consume_attributes_step, hdup, throw, throwThe, MonadExceptOf.throw,
              except_bind_error] at h
          · simp only [consume_attributes_step, hdup, Bool.false_eq_true, if_false,
              except_pure, except_bind_ok] at h
            have := ih acc1 (acc2 ++ [(k, v)]) res attrs h
            simpa [Stanza.isAssignment] using this
      | block f i c =>
          simp only [consume_attributes_step, except_pure, except_bind_ok] at h
          have := ih (acc1 ++ [.block f i c]) acc2 res attrs h
          simpa [Stanza.isAssignment] using this
      | levelStatement l t =>
          simp only [consume_attributes_step, except_pure, except_bind_ok] at h
          have := ih (acc1 ++ [.levelStatement l t]) acc2 res attrs h
          simpa [Stanza.isAssignment] using this

/-- On success, consume_attributes returns as residual exactly the
non-assignment children, in order. -/
theorem consume_attributes_residual (contents res : List Stanza) (attrs : Attrs)
    (h : consume_attributes contents = .ok (res, attrs)) :
    res = contents.filter (fun s => ! s.isAssignment) := by
  have := consume_attributes_residual_go contents [] [] res attrs h
  simpa using this

/-- On success, validate_attributes returns a block whose children are
the non-assignment children of the input block. -/
theorem validate_attributes_residual (f : String) (idx : Option Value)
    (contents : List Stanza) (mandatory optional_keys : List (String × PyType))
    (strict : Bool) (b2 : Stanza) (attrs : Attrs)
    (h : validate_attributes (.block f idx contents) mandatory optional_keys strict =
      .ok (b2, attrs)) :
    b2 = .block f idx (contents.filter (fun s => ! s.isAssignment)) := by
  simp only [validate_attributes] at h
  cases h1 : consume_attributes contents with
  | error e => rw [h1, except_bind_error] at h; cases h
  | ok pr =>
      obtain ⟨residual, attributes⟩ := pr
      rw [h1, except_bind_ok] at h
      cases h2 : validate_dictionary attributes mandatory optional_keys strict with
      | error e => rw [h2, except_bind_error] at h; cases h
      | ok a2 =>
          rw [h2, except_bind_ok, except_pure] at h
          cases h
          exact congrArg (Stanza.block f idx)
            (consume_attributes_residual contents residual attributes h1)

/-- Except.map on a successful value. -/
theorem except_map_ok {e a b : Type} (f : a → b) (x : a) :
    Except.map f (Except.ok x : Except e a) = .ok (f x) := rfl

/-- Counterexample for claim C3: the zip consumes its argument lists
(the final list state is empty, not the input), and validate_attributes
hands back a block with the assignment children removed, not the
original block. -/
theorem C3_counterexample :
    ((zip_level_lists [[(3, .i 0), (2, .i 1)], [(1, .i 0), (4, .i 1)]]).map Prod.snd =
        .ok [[], []] ∧
      ([[], []] : List LevelList) ≠ [[(3, .i 0), (2, .i 1)], [(1, .i 0), (4, .i 1)]]) ∧
    (validate_attributes (.block "S" none [.assignment "K" (.int 1)]) [("K", .int)] [] true =
        .ok (.block "S" none [], [("K", .int 1)]) ∧
      Stanza.block "S" none [] ≠ .block "S" none [.assignment "K" (.int 1)]) :=
  ⟨⟨by with_unfolding_all rfl, by simp⟩, ⟨by with_unfolding_all rfl, by simp⟩⟩

/-- Claim C3 as amended: operations build their outputs as fresh lists,
but zip_level_lists consumes its argument lists in place, leaving them
empty whenever all lists carry positive durations and equal totals,
and validate_attributes replaces the children of the block by the
residual (non-assignment) subsequence. -/
theorem C3_mutation_behavior :
    (∀ lists : List LevelList, lists ≠ [] →
      (∀ l ∈ lists, ∀ p ∈ l, 0 < p.1) →
      (∀ l1 ∈ lists, ∀ l2 ∈ lists, dur_sum l1 = dur_sum l2) →
      (zip_level_lists lists).map Prod.snd = .ok (lists.map (fun _ => []))) ∧
    (∀ (f : String) (idx : Option Value) (contents : List Stanza)
      (mandatory optional_keys : List (String × PyType)) (strict : Bool)
      (b2 : Stanza) (attrs : Attrs),
      validate_attributes (.block f idx contents) mandatory optional_keys strict =
        .ok (b2, attrs) →
      b2 = .block f idx (contents.filter (fun s => ! s.isAssignment))) := by
  constructor
  · intro lists hne hpos hsum
    have hlen : ¬ lists.length = 0 := fun h => hne (List.length_eq_zero.mp h)
    simp only [zip_level_lists, if_neg hlen, except_map_ok]
    rw [zip_final_empty (total_len lists) lists (le_refl _) hne hpos hsum]
  · exact validate_attributes_residual

/-- Witness for C3 at concrete inputs: two equal-duration singleton
lists are fully drained, and a concrete block loses its assignment
child. -/
theorem C3_mutation_behavior_witness :
    (zip_level_lists [[((1 : ℚ), SLevel.i 0)], [(1, .i 1)]]).map Prod.snd =
      .ok [[], []] ∧
    Stanza.block "S" none [] =
      .block "S" none
        ([.assignment "K" (.int 1)].filter (fun s => ! s.isAssignment)) :=
  ⟨C3_mutation_behavior.1 [[(1, .i 0)], [(1, .i 1)]] (by simp) (by decide)
      (by
        intro l1 h1 l2 h2
        fin_cases h1 <;> fin_cases h2 <;> with_unfolding_all rfl),
   C3_mutation_behavior.2 "S" none [.assignment "K" (.int 1)] [("K", .int)] [] true
      (.block "S" none []) [("K", .int 1)] (by with_unfolding_all rfl)⟩

/-- Unfolding of the flattener on a well-shaped NODE repeat block. -/
theorem convert_node_block (n : ℤ) (cs : List Stanza) :
    convert_level_stanza (.block "NODE" none (.assignment "REPEAT" (.int n) :: cs)) =
      (convert_level_seq cs).map (fun c => (List.replicate n.toNat c).flatten) := by
  rfl

/-- Claim C6: a NODE block whose first child assigns REPEAT a
non-negative integer n and whose remaining children flatten to the
sequence S flattens to exactly n concatenated copies of S, in order,
empty for n = 0, with no merging of adjacent equal levels across
repeat boundaries. -/
theorem C6_repeat_expansion :
    (∀ (n : ℤ) (cs : List Stanza) (S : LevelList), 0 ≤ n →
      convert_level_seq cs = some S →
      convert_level_stanza (.block "NODE" none (.assignment "REPEAT" (.int n) :: cs)) =
        some ((List.replicate n.toNat S).flatten) ∧
      ((List.replicate n.toNat S).flatten).length = n.toNat * S.length) ∧
    convert_level_stanza (.block "NODE" none [.assignment "REPEAT" (.int 0),
      .levelStatement (.i 0) 3]) = some [] ∧
    convert_level_stanza (.block "NODE" none [.assignment "REPEAT" (.int 2),
      .levelStatement (.i 1) 5, .levelStatement (.i 1) 5]) =
      some [(5, .i 1), (5, .i 1), (5, .i 1), (5, .i 1)] := by
  refine ⟨?_, by with_unfolding_all rfl, by with_unfolding_all rfl⟩
  intro n cs S _hn hS
  constructor
  · rw [convert_node_block, hS]
    rfl
  · simp [List.length_flatten, List.map_replicate, List.sum_replicate, smul_eq_mul]

/-- Witness for C6 at a concrete repeat group: three copies of a
one-entry body. -/
theorem C6_repeat_expansion_witness :
    convert_level_stanza (.block "NODE" none [.assignment "REPEAT" (.int 3),
        .levelStatement (.i 0) 2]) =
      some ((List.replicate (3 : ℤ).toNat [((2 : ℚ), SLevel.i 0)]).flatten) ∧
    ((List.replicate (3 : ℤ).toNat [((2 : ℚ), SLevel.i 0)]).flatten).length =
      (3 : ℤ).toNat * [((2 : ℚ), SLevel.i 0)].length :=
  C6_repeat_expansion.1 3 [.levelStatement (.i 0) 2] [(2, .i 0)] (by norm_num)
    (by with_unfolding_all rfl)

/-- Except.map on a failed value. -/
theorem except_map_error {e a b : Type} (f : a → b) (err : e) :
    Except.map f (Except.error err : Except e a) = .error err := rfl

/-- Lookup success is preserved by any key-preserving map. -/
theorem lookup_map_key_pres {b : Type} (f : (String × b) → (String × b))
    (hf : ∀ q, (f q).1 = q.1) (m : List (String × b)) (k2 : String) :
    ((m.map f).lookup k2).isSome = (m.lookup k2).isSome := by
  induction m with
  | nil => rfl
  | cons p rest ih =>
      simp only [List.map_cons, List.lookup, hf p]
      cases hbeq : (k2 == p.1) with
      | true => rfl
      | false => simpa using ih

/-- Installing a transition list changes no key and removes no
entry. -/
theorem set_transition_lookup (m : List (String × Signal)) (k : String) (st : Stanza)
    (k2 : String) :
    ((set_transition m k st).lookup k2).isSome = (m.lookup k2).isSome :=
  lookup_map_key_pres _ (fun q => by split <;> rfl) m k2

/-- Every transition-list entry accepted by the fold names a key of the
accumulator and holds exactly one stanza. -/
theorem map_signals_fold (tls : List (String × List Stanza)) :
    ∀ (m0 m : List (String × Signal)), tls.foldlM map_signals_step m0 = .ok m →
    ∀ p ∈ tls, (m0.lookup p.1).isSome = true ∧ p.2.length = 1 := by
  induction tls with
  | nil => intro m0 m _ p hp; cases hp
  | cons q rest ih =>
      intro m0 m h p hp
      obtain ⟨qn, qc⟩ := q
      rw [List.foldlM_cons] at h
      by_cases hq : (m0.lookup qn).isSome = true
      · rcases qc with _ | ⟨st, _ | ⟨st2, tail2⟩⟩
        · simp [map_signals_step, hq, throw, throwThe, MonadExceptOf.throw,
            except_bind_error] at h
        · have hstep : map_signals_step m0 (qn, [st]) = pure (set_transition m0 qn st) := by
            simp [map_signals_step, hq]
          rw [hstep, except_pure, except_bind_ok] at h
          rcases List.mem_cons.mp hp with hpq | hpr
          · subst hpq
            exact ⟨hq, rfl⟩
          · have := ih (set_transition m0 qn st) m h p hpr
            exact ⟨by rw [← set_transition_lookup m0 qn st p.1]; exact this.1, this.2⟩
        · simp [map_signals_step, hq, throw, throwThe, MonadExceptOf.throw,
            except_bind_error] at h
      · simp [map_signals_step, hq, throw, throwThe, MonadExceptOf.throw,
          except_bind_error] at h

/-- Parsing the signal dictionary preserves its key sequence. -/
theorem map_signals_parse_keys (signals : List (String × List Stanza)) :
    ∀ (sigs : List (String × Signal)),
    signals.mapM (fun p => (parse_signal p.1 p.2).map (fun s => (p.1, s))) = .ok sigs →
    sigs.map Prod.fst = signals.map Prod.fst := by
  induction signals with
  | nil =>
      intro sigs h
      cases h
      rfl
  | cons q rest ih =>
      intro sigs h
      rw [List.mapM_cons] at h
      cases hq : parse_signal q.1 q.2 with
      | error e =>
          rw [hq, except_map_error, except_bind_error] at h
          cases h
      | ok s =>
          rw [hq, except_map_ok] at h
          simp only [except_bind_ok] at h
          cases hr : rest.mapM (fun p => (parse_signal p.1 p.2).map (fun s => (p.1, s))) with
          | error e => rw [hr, except_bind_error] at h; cases h
          | ok l =>
              rw [hr] at h
              simp only [except_bind_ok, except_pure] at h
              cases h
              simp [ih l hr]

/-- A lookup succeeds exactly on the keys of an association list. -/
theorem lookup_isSome_iff_keys {β : Type} (m : List (String × β)) (k : String) :
    (m.lookup k).isSome = true ↔ k ∈ m.map Prod.fst := by
  induction m with
  | nil => simp [List.lookup]
  | cons p rest ih =>
      simp only [List.lookup, List.map_cons, List.mem_cons]
      cases hbeq : (k == p.1) <;> simp_all [beq_iff_eq]

/-- Counterexample for claim C2: a declared signal with no
TRANSITION_LIST entry does not make the parse fail; map_signals
succeeds and leaves the transition list of that signal unset. -/
theorem C2_counterexample :
    map_signals [("a", sig_contents)] [] =
      .ok [("a", { direction := "input", value_type := "NINE_LEVEL_BIT", width := 1,
                   parent := none, transition_list := none })] := by
  with_unfolding_all rfl

/-- Claim C2 as amended: the join is checked in one direction only;
whenever map_signals succeeds, every TRANSITION_LIST entry names a
declared SIGNAL and holds exactly one stanza sequence, while a SIGNAL
without a transition-list entry is tolerated. -/
theorem C2_join_checks (signals transition_lists : List (String × List Stanza))
    (m : List (String × Signal)) (h : map_signals signals transition_lists = .ok m) :
    ∀ p ∈ transition_lists, p.1 ∈ signals.map Prod.fst ∧ p.2.length = 1 := by
  intro p hp
  simp only [map_signals] at h
  cases hs : signals.mapM (fun p => (parse_signal p.1 p.2).map (fun s => (p.1, s))) with
  | error e => rw [hs, except_bind_error] at h; cases h
  | ok sigs =>
      rw [hs, except_bind_ok] at h
      have hfold := map_signals_fold transition_lists sigs m h p hp
      refine ⟨?_, hfold.2⟩
      have hkeys := map_signals_parse_keys signals sigs hs
      have := (lookup_isSome_iff_keys sigs p.1).mp hfold.1
      rwa [hkeys] at this

/-- Witness for C2 at a concrete successful join: the transition-list
entry names the declared signal and holds one stanza. -/
theorem C2_join_checks_witness :
    ("a", [Stanza.levelStatement (.i 0) 5]).1 ∈
      [("a", sig_contents)].map Prod.fst ∧
    ("a", [Stanza.levelStatement (.i 0) 5]).2.length = 1 :=
  C2_join_checks [("a", sig_contents)] [("a", [.levelStatement (.i 0) 5])]
    [("a", { direction := "input", value_type := "NINE_LEVEL_BIT", width := 1,
             parent := none, transition_list := some (.levelStatement (.i 0) 5) })]
    (by with_unfolding_all rfl)
    ("a", [.levelStatement (.i 0) 5]) (by simp)

/-- Claim C1 (evidence of the code bug): a header that deviates from
the fixed-configuration invariant, or that has leftover unparsed
children, does not abort the parse.  validate_header returns the
ParseError as a value instead of raising it, so parse_vwf completes
and hands the caller a Document whose header slot holds the error
object. -/
theorem C1_unaccepted_header_returns_document :
    parse_vwf_stanzas [bad_header_block] =
      .ok ⟨.errObject "Unaccepted header", [], [], []⟩ ∧
    parse_vwf_stanzas [leftover_header_block] =
      .ok ⟨.errObject "Unparsed header contents", [], [], []⟩ :=
  ⟨by with_unfolding_all rfl, by with_unfolding_all rfl⟩

/-- Claim C9 (evidence of the code bug): a non-ASCII input does make
parsing fail, but with NameError (the handler names the unbound
identifier DecodeError), not with the defined
ParseError("Non-ASCII content"); an all-ASCII input passes the decode
stage. -/
theorem C9_non_ascii_decode_raises_name_error :
    parse_vwf_decode [104, 255] = .error (.nameError "DecodeError") ∧
    (∀ msg : String, parse_vwf_decode [104, 255] ≠ .error (.parseError msg)) ∧
    parse_vwf_decode [104, 105] = .ok [104, 105] := by
  refine ⟨by with_unfolding_all rfl, ?_, by with_unfolding_all rfl⟩
  intro msg h
  rw [show parse_vwf_decode [104, 255] = .error (.nameError "DecodeError") from by
    with_unfolding_all rfl] at h
  simp at h

/-- Claim C10: scalar levels 0 and 1 are emitted directly as the fixed
low/high glyphs, for any renderer argument (so no renderer is
consulted); the scalar level X, which the flattener itself accepts as
a valid single-bit level, makes glyph emission fail with the
isinstance-tuple assertion instead of producing a glyph. -/
theorem C10_scalar_glyphs :
    (∀ (t : ℚ) (cfg : Config) (r : Option (List SLevel → Except PErr String)),
      render_level t (.s (.i 0)) r cfg = .ok "L" ∧
      render_level t (.s (.i 1)) r cfg = .ok "H" ∧
      render_level t (.s .X) r cfg = .error .assertionError) ∧
    convert_level_stanza (.levelStatement .X 5) = some [(5, .X)] :=
  ⟨fun _ _ _ => ⟨rfl, rfl, rfl⟩, by with_unfolding_all rfl⟩

/-- The clock_step fold computes the closed-form tail: success exactly
on strict alternation, with the C glyphs appended in order. -/
theorem clock_fold (config : Config) (rest : List (ℚ × RLevel)) :
    ∀ (s : String) (last : RLevel),
    rest.foldlM (clock_step config) (s, last) =
      if clock_alt_ok last rest then
        .ok (s ++ clock_tail_render config rest, clock_last last rest)
      else .error .assertionError := by
  induction rest with
  | nil =>
      intro s last
      simp [clock_alt_ok, clock_tail_render, clock_last, List.foldlM_nil, except_pure]
  | cons p r ih =>
      intro s last
      rw [List.foldlM_cons]
      by_cases hc : (p.2 = .s (.i 0) ∨ p.2 = .s (.i 1)) ∧ p.2 ≠ last
      · have hstep : clock_step config (s, last) p =
            pure (s ++ " " ++ create_time_formatter config p.1 ++ "C", p.2) := by
          simp [clock_step, hc]
        rw [hstep, except_pure, except_bind_ok, ih]
        simp only [clock_alt_ok, clock_last, clock_tail_render, hc, if_true]
        by_cases ha : clock_alt_ok p.2 r
        · simp [ha, String.append_assoc, hc.2]
        · simp [ha, hc.2]
      · have hstep : clock_step config (s, last) p = throw .assertionError := by
          simp [clock_step, hc]
        rw [hstep]
        simp [throw, throwThe, MonadExceptOf.throw, except_bind_error, clock_alt_ok, hc]

/-- The post-crop clock renderer computes exactly the closed form. -/
theorem render_clock_core (cl : List (ℚ × RLevel)) (cfg : Config) :
    render_clock_after_crop cl cfg = clock_render_result cl cfg := by
  simp only [render_clock_after_crop]
  cases cl with
  | nil => rfl
  | cons p rest =>
      obtain ⟨t0, l0⟩ := p
      by_cases h0 : (l0 = .s (.i 0) ∨ l0 = .s (.i 1))
      · rcases h0 with h | h <;> subst h <;>
          · simp only [clock_render_result, render_level, not_true, not_false_iff,
              if_neg, if_pos, true_or, or_true, true_and, not_or, ite_not,
              except_bind_ok, except_pure, clock_fold]
            by_cases halt : clock_alt_ok (RLevel.s (.i 0)) rest <;>
              by_cases halt2 : clock_alt_ok (RLevel.s (.i 1)) rest <;>
              simp [halt, halt2, glyph01, except_bind_ok, except_pure,
                throw, throwThe, MonadExceptOf.throw, except_bind_error]
      · have h1 : ¬ (l0 = RLevel.s (.i 0) ∨ l0 = RLevel.s (.i 1)) := h0
        simp [clock_render_result, h1, throw, throwThe, MonadExceptOf.throw,
          except_bind_error]

/-- Claim C7: the no-slope clock rendering (the branch
render_display_line takes for a non-bus clock-node line with
clock_no_slope enabled) renders the cropped list by the closed form of
the spec: the first level must be 0 or 1 and is emitted as its level
glyph, every subsequent level must strictly alternate and is emitted
as a plain C edge glyph, and a repeated or out-of-domain level is the
defined assertion error; concretely, a clock whose flattened list
repeats level 1 makes the whole line rendering fail with that
error. -/
theorem C7_clock_no_slope :
    (∀ (ll : List (ℚ × RLevel)) (line : DisplayLine) (cfg : Config),
      render_clock_level_list ll line cfg =
        match cfg.viewport with
        | none => clock_render_result ll cfg
        | some vp =>
            match crop_level_list ll vp with
            | some cl => clock_render_result cl cfg
            | none => .error .assertionError) ∧
    render_display_line (.mk "clk" "Binary" false none) clk_repeat_signals cfg_c7 =
      .error .assertionError := by
  constructor
  · intro ll line cfg
    cases hvp : cfg.viewport with
    | none =>
        simp only [render_clock_level_list, hvp, except_pure, except_bind_ok]
        exact render_clock_core ll cfg
    | some vp =>
        cases hcrop : crop_level_list ll vp with
        | none =>
            simp [render_clock_level_list, hvp, crop_except, hcrop, throw, throwThe,
              MonadExceptOf.throw, except_bind_error]
        | some cl =>
            simp only [render_clock_level_list, hvp, crop_except, hcrop, except_pure,
              except_bind_ok]
            exact render_clock_core cl cfg
  · with_unfolding_all rfl

/-- The clock-helper fold ignores expansion flags. -/
theorem clock_fold_set_expanded (sigs : List (String × Signal)) (cfg : Config)
    (target : ℤ) (e : Bool) (lines : List DisplayLine) : ∀ hl : List ℚ,
    (lines.map (set_expanded e)).foldlM (get_clock_lines_step sigs cfg target) hl =
      lines.foldlM (get_clock_lines_step sigs cfg target) hl := by
  induction lines with
  | nil => intro hl; rfl
  | cons l rest ih =>
      intro hl
      rw [List.map_cons, List.foldlM_cons, List.foldlM_cons]
      have hstep : get_clock_lines_step sigs cfg target hl (set_expanded e l) =
          get_clock_lines_step sigs cfg target hl l := by
        cases l
        rfl
      rw [hstep]
      cases hx : get_clock_lines_step sigs cfg target hl l with
      | error er => rw [except_bind_error, except_bind_error]
      | ok hl2 => rw [except_bind_ok, except_bind_ok, ih hl2]

/-- Counterexample for claim C8: the forest contains a clock-matching
display line (the child of the root) with a rising transition, yet the
helper pass records nothing, because it walks only the top-level list
and never recurses into children. -/
theorem C8_counterexample :
    match_node cfg_c8.clock_node "clk" = true ∧
    (c8_forest.headD (.mk "" "" false none)).children =
      some [.mk "clk" "Unsigned" false none] ∧
    get_level_list (.mk "clk" "Unsigned" false none) c8_signals =
      .ok [(5, .i 0), (5, .i 1), (5, .i 0), (5, .i 1)] ∧
    get_clock_lines [] c8_forest c8_signals cfg_c8 = .ok [] :=
  ⟨by with_unfolding_all rfl, by with_unfolding_all rfl,
   by with_unfolding_all rfl, by with_unfolding_all rfl⟩

/-- Claim C8 as amended: the clock-helper pass scans only the display
lines of the list it is handed (children are never visited), and does
so regardless of their expansion state; for each matching line it
records the accumulated timestamps of the entries at the configured
target level, and the directive keeps only timestamps strictly inside
the configured viewport, shifted to viewport-relative coordinates and
comma-joined. -/
theorem C8_clock_helper :
    (∀ (hl : List ℚ) (lines : List DisplayLine) (sigs : List (String × Signal))
       (cfg : Config) (e : Bool),
      get_clock_lines hl (lines.map (set_expanded e)) sigs cfg =
        get_clock_lines hl lines sigs cfg) ∧
    get_clock_lines [] [.mk "clk" "Unsigned" true none] c8_signals cfg_c8 =
      .ok [5, 15] ∧
    render_help_lines [5, 15] cfg_c8vp = "\\vertlines[help lines]\x7b2,12\x7d" := by
  refine ⟨?_, by with_unfolding_all rfl, by with_unfolding_all rfl⟩
  intro hl lines sigs cfg e
  simp only [get_clock_lines]
  cases cfg.clock_lines with
  | none => rfl
  | some mode =>
      by_cases hm : mode = "rising"
      · simp only [hm, if_pos, except_pure, except_bind_ok]
        exact clock_fold_set_expanded sigs cfg 1 e lines hl
      · by_cases hf : mode = "falling"
        · simp only [hm, hf, if_neg, if_pos, except_pure, except_bind_ok]
          exact clock_fold_set_expanded sigs cfg 0 e lines hl
        · simp [hm, hf, throw, throwThe, MonadExceptOf.throw, except_bind_error]
